import Mathlib

/-!
Verification development for the NiceMed journal registry and resolver.

The JavaScript sources are embedded shallowly:
* JS strings become `List Char`; `null`/`undefined`-or-string values become
  `Option (List Char)` (`none` is `null`/`undefined`).
* JS numbers appearing here are either array indices (`Nat`) or the match
  score / impact factor (`ℚ`); the score computation `0/0` produces `NaN`
  in JS, which is modelled as `none : Option ℚ`.
* `String.prototype.toUpperCase`/`toLowerCase` are modelled on the ASCII
  range (the only cased characters these code paths receive; CJK characters
  are caseless in JS as well).
-/

/-- The character class of the JS regex `\s` (and of `String.prototype.trim`):
space, `\t\n\v\f\r`, NBSP, BOM, and the Unicode space separators. -/
def isJsSpace (c : Char) : Bool :=
  c.toNat == 32 || (9 ≤ c.toNat && c.toNat ≤ 13) || c.toNat == 160 ||
  c.toNat == 0x1680 || (0x2000 ≤ c.toNat && c.toNat ≤ 0x200A) ||
  c.toNat == 0x2028 || c.toNat == 0x2029 || c.toNat == 0x202F ||
  c.toNat == 0x205F || c.toNat == 0x3000 || c.toNat == 0xFEFF

/-- ASCII lower/upper case letter pairs, the table behind the model of
`toUpperCase` / `toLowerCase`. -/
def lowerUpperPairs : List (Char × Char) :=
  [('a', 'A'), ('b', 'B'), ('c', 'C'), ('d', 'D'), ('e', 'E'), ('f', 'F'),
   ('g', 'G'), ('h', 'H'), ('i', 'I'), ('j', 'J'), ('k', 'K'), ('l', 'L'),
   ('m', 'M'), ('n', 'N'), ('o', 'O'), ('p', 'P'), ('q', 'Q'), ('r', 'R'),
   ('s', 'S'), ('t', 'T'), ('u', 'U'), ('v', 'V'), ('w', 'W'), ('x', 'X'),
   ('y', 'Y'), ('z', 'Z')]

/-- Model of `toUpperCase` on one character (ASCII). -/
def jsUpperChar (c : Char) : Char :=
  match lowerUpperPairs.find? (fun p => p.1 == c) with
  | some p => p.2
  | none => c

/-- Model of `toLowerCase` on one character (ASCII). -/
def jsLowerChar (c : Char) : Char :=
  match lowerUpperPairs.find? (fun p => p.2 == c) with
  | some p => p.1
  | none => c

/-- Model of `String.prototype.trim`: drop `\s` characters from both ends. -/
def jsTrim (s : List Char) : List Char :=
  ((s.dropWhile isJsSpace).reverse.dropWhile isJsSpace).reverse

/-- `s.replace(/\s/g, '').toUpperCase()` — shared by all three
`normalizeISSN` variants. -/
def stripUpper (s : List Char) : List Char :=
  (s.filter (fun c => !(isJsSpace c))).map jsUpperChar

/-- The hyphen-insertion step shared by the converter's and the NiceMed
background's `normalizeISSN`: an 8-character hyphen-free code gains a
hyphen after position 4. -/
def hyphenateIfNeeded (s : List Char) : List Char :=
  if s.length == 8 && !(s.contains '-') then s.take 4 ++ '-' :: s.drop 4 else s

/-- `parseInt(ds, 10)` on a nonempty digit string. -/
def digitsToNat (ds : List Char) : Nat :=
  ds.foldl (fun n c => 10 * n + (c.toNat - 48)) 0

/-- Model of JS `parseFloat` for the decimal literals fed to it here
(optional sign, integer digits, optional fraction; the longest valid
prefix is taken after skipping leading whitespace). `none` is `NaN`. -/
def jsParseFloat (s : List Char) : Option ℚ :=
  let t := s.dropWhile isJsSpace
  let sgnAndRest : ℚ × List Char :=
    match t with
    | '-' :: r => (-1, r)
    | '+' :: r => (1, r)
    | _ => (1, t)
  let ip := sgnAndRest.2.takeWhile Char.isDigit
  let t2 := sgnAndRest.2.drop ip.length
  match t2 with
  | '.' :: r =>
    let fp := r.takeWhile Char.isDigit
    if ip.isEmpty && fp.isEmpty then none
    else some (sgnAndRest.1 * ((digitsToNat ip : ℚ) + (digitsToNat fp : ℚ) / 10 ^ fp.length))
  | _ => if ip.isEmpty then none else some (sgnAndRest.1 * (digitsToNat ip : ℚ))

/-- `Math.max(a, b)` on two (non-`NaN`) numbers. -/
def jsMaxQ (a b : ℚ) : ℚ := if a ≤ b then b else a

/-- `value.includes(pat)` on strings. -/
def containsSub (s pat : List Char) : Bool :=
  match s with
  | [] => pat.isEmpty
  | c :: rest => pat.isPrefixOf (c :: rest) || containsSub rest pat

namespace Background

/-- `extension/background.js` `normalizeISSN`: remove whitespace AND
hyphens, uppercase.  (This variant never re-inserts a hyphen.) -/
def normalizeISSN (issn : List Char) : List Char :=
  if issn.isEmpty then []
  else (issn.filter (fun c => !(isJsSpace c || c == '-'))).map jsUpperChar

/-- The stop words dropped by `parseName`. -/
def stopWords : List (List Char) := ["THE", "A", "AN"].map String.toList

/-- The dangling-connector set of the truncation guard. -/
def suspiciousEndings : List (List Char) :=
  ["OF", "AND", "THE", "A", "AN", "IN", "ON", "FOR"].map String.toList

/-- `parseName`: uppercase, `&` → ` AND `, non-alphanumerics → space,
split on whitespace, drop empty tokens and stop words.  (JS splits with
`/\s+/` and then filters `w.length > 0`; `splitOnP` + the same filter
yields the identical token list.) -/
def parseName (name : List Char) : List (List Char) :=
  let upper := name.map jsUpperChar
  let amp := upper.flatMap (fun c => if c == '&' then " AND ".toList else [c])
  let cleaned := amp.map (fun c =>
    if (65 ≤ c.toNat && c.toNat ≤ 90) || (48 ≤ c.toNat && c.toNat ≤ 57) || isJsSpace c
    then c else ' ')
  (cleaned.splitOnP isJsSpace).filter (fun w => !w.isEmpty && !(stopWords.contains w))

/-- The cursor loop of `isSubsequence` (advance in `s2`, advance in `s1`
only on a character match; succeed when `s1` is exhausted). -/
def subseqAux : List Char → List Char → Bool
  | [], _ => true
  | _ :: _, [] => false
  | a :: as, b :: bs => if a == b then subseqAux as bs else subseqAux (a :: as) bs

/-- `isSubsequence(s1, s2)`: length guard, mandatory first-character match
(`s1[0] !== s2[0]` compares `undefined` when either string is empty), then
the in-order character walk. -/
def isSubsequence (s1 s2 : List Char) : Bool :=
  if s2.length < s1.length then false
  else if s1.head? != s2.head? then false
  else subseqAux s1 s2

/-- The greedy two-cursor coverage loop of `calculateMatchScore`: a query
token matching the current target token by prefix or first-char-anchored
subsequence advances both cursors; otherwise the target cursor skips. -/
def walkCount : List (List Char) → List (List Char) → Nat
  | [], _ => 0
  | _ :: _, [] => 0
  | q :: qs, t :: ts =>
    if q.isPrefixOf t || isSubsequence q t then walkCount qs ts + 1
    else walkCount (q :: qs) ts

/-- `coverage * 100`; the division `matchCount / qObj.words.length` is
`0/0 = NaN` for a token-free query, modelled as `none`. -/
def coverageScore (qW tW : List (List Char)) : Option ℚ :=
  if qW.length == 0 then none
  else some ((walkCount qW tW : ℚ) / (qW.length : ℚ) * 100)

/-- `Math.min(20, extraWords * 2)` with `extraWords = max(0, tlen − matched)`
(the `Nat` subtraction is exactly the `max(0, ·)`). -/
def extraWordPenalty (qW tW : List (List Char)) : ℕ :=
  min 20 ((tW.length - walkCount qW tW) * 2)

/-- Score, tie-break penalty (only at score ≥ 90), and the final
`Math.max(0, score)` (which maps `NaN` to `NaN`, i.e. `none` to `none`). -/
def scoreMain (qW tW : List (List Char)) : Option ℚ :=
  match coverageScore qW tW with
  | none => none
  | some score =>
    some (jsMaxQ 0 (if 90 ≤ score then score - (extraWordPenalty qW tW : ℚ) else score))

/-- `true` iff the token list is nonempty and its last token is a
dangling connector. -/
def suspiciousLast (qW : List (List Char)) : Bool :=
  match qW.getLast? with
  | none => false
  | some w => suspiciousEndings.contains w

/-- `calculateMatchScore(query, target)`; `none` models a `NaN` result. -/
def calculateMatchScore (query target : List Char) : Option ℚ :=
  if query.isEmpty || target.isEmpty then some 0
  else
    let qW := parseName query
    let tW := parseName target
    if tW.length < qW.length then some 0
    else if suspiciousLast qW then some 0
    else scoreMain qW tW

end Background

namespace NmBackground

/-- The NiceMed background script's `normalizeISSN` (embedded in the
`convert-csv.js` source document): strip whitespace, uppercase, and
re-insert the hyphen into an 8-character code, preserving existing
hyphens so the result matches the registry keys. -/
def normalizeISSN (issn : List Char) : List Char :=
  if issn.isEmpty then [] else hyphenateIfNeeded (stripUpper issn)

end NmBackground

namespace ConvertCsv

/-- A parsed CSV row object: column name to raw field string. -/
abbrev Row : Type := List (List Char × List Char)

/-- `row[key]`: `none` models reading an absent property (`undefined`). -/
def rowGet (row : Row) (k : List Char) : Option (List Char) :=
  (List.find? (fun p => p.1 == k) row).map (fun p => p.2)

/-- JS truthiness of a string-or-`null`/`undefined` value. -/
def jsTruthy : Option (List Char) → Bool
  | none => false
  | some s => !s.isEmpty

/-- `value || null`: an absent or empty string becomes `null`. -/
def optTruthy : Option (List Char) → Option (List Char)
  | none => none
  | some s => if s.isEmpty then none else some s

/-- `scripts/convert-csv.js` `normalizeISSN`: the `null`/sentinel guard,
then strip whitespace, uppercase, hyphenate an 8-character code.
`none` models the JS `null` result. -/
def normalizeISSN (issn : List Char) : Option (List Char) :=
  if issn.isEmpty || issn == "N/A".toList then none
  else some (hyphenateIfNeeded (stripUpper issn))

/-- The regex tail `\[\d+\/\d+\]` of `parseCasDivision` (a bracketed
`rank/total`; anything may follow the closing bracket). -/
def bracketMatches (r : List Char) : Bool :=
  match r with
  | '[' :: r1 =>
    let d1 := r1.takeWhile Char.isDigit
    !d1.isEmpty &&
      (match r1.drop d1.length with
       | '/' :: r3 =>
         let d2 := r3.takeWhile Char.isDigit
         !d2.isEmpty &&
           (match r3.drop d2.length with
            | ']' :: _ => true
            | _ => false)
       | _ => false)
  | _ => false

/-- `parseCasDivision(text)`: on a match of `/^(\d+)\s*(\[\d+\/\d+\])/`,
the leading integer and the trimmed full text; otherwise both `null`. -/
def parseCasDivision (text : Option (List Char)) : Option Nat × Option (List Char) :=
  match text with
  | none => (none, none)
  | some t =>
    if t.isEmpty then (none, none)
    else
      let ds := t.takeWhile Char.isDigit
      if !ds.isEmpty && bracketMatches ((t.drop ds.length).dropWhile isJsSpace) then
        (some (digitsToNat ds), some (jsTrim t))
      else (none, none)

/-- `isTop(value)`: strict equality with the Top marker. -/
def isTop (v : Option (List Char)) : Bool := v == some ("是".toList)

/-- `isChinaSupport(value)`: falsy guard, then substring containment of
either support-program marker. -/
def isChinaSupport (v : Option (List Char)) : Bool :=
  match v with
  | none => false
  | some s =>
    if s.isEmpty then false
    else containsSub s ("中国SCI期刊支持计划".toList) || containsSub s ("中英文期刊".toList)

/-- `isWarning(value)`: falsy guard, then containment of the warning marker. -/
def isWarning (v : Option (List Char)) : Bool :=
  match v with
  | none => false
  | some s => if s.isEmpty then false else containsSub s ("预警".toList)

/-- `isMega(value)`: falsy guard, lowercase, then containment of `mega`. -/
def isMega (v : Option (List Char)) : Bool :=
  match v with
  | none => false
  | some s => if s.isEmpty then false else containsSub (s.map jsLowerChar) ("mega".toList)

/-- The record type built by the converter.  The source's `if` field is a
Lean keyword and is embedded as `jif`. -/
structure Journal where
  name : List Char
  issn : Option (List Char)
  eissn : Option (List Char)
  casCategory : Option (List Char)
  casQ : Option Nat
  casRank : Option (List Char)
  isTop : Bool
  isChinaSupport : Bool
  isWarning : Bool
  isMega : Bool
  jif : Option ℚ
  jcrQ : Option (List Char)
deriving DecidableEq, Repr

/-- The all-`null` record used only as a lookup default (never reachable:
every index entry points below `store.length`). -/
def defaultJournal : Journal :=
  ⟨[], none, none, none, none, none, false, false, false, false, none, none⟩

/-- The registry under construction.  JS aliasing (`journals[issn]` and
`journals[eissn]` holding the same object) is made explicit: `store` is
the heap of allocated records and `index` maps identifier keys to heap
positions, so two keys bound to one position share one record instance. -/
structure RegState where
  store : List Journal
  index : List (List Char × Nat)
  excludedIssns : List (List Char)
deriving Repr

def initState : RegState := ⟨[], [], []⟩

/-- `journals[k] = id`: overwrite an existing key or append a new one. -/
def idxSet (idx : List (List Char × Nat)) (k : List Char) (v : Nat) :
    List (List Char × Nat) :=
  if idx.any (fun p => p.1 == k) then
    idx.map (fun p => if p.1 == k then (k, v) else p)
  else idx ++ [(k, v)]

/-- Key lookup in the identifier index. -/
def idxGet (idx : List (List Char × Nat)) (k : List Char) : Option Nat :=
  (List.find? (fun p => p.1 == k) idx).map (fun p => p.2)

/-- `if (i) excludedIssns.add(i)`. -/
def exAdd (ex : List (List Char)) (o : Option (List Char)) : List (List Char) :=
  match o with
  | none => ex
  | some i => if i.isEmpty then ex else if ex.contains i then ex else ex ++ [i]

/-- `i && excludedIssns.has(i)`. -/
def exHasTruthy (ex : List (List Char)) (o : Option (List Char)) : Bool :=
  match o with
  | none => false
  | some i => !i.isEmpty && ex.contains i

/-- The excluded subject categories of the converter. -/
def excludedCategories : List (List Char) :=
  ["文学", "历史学", "艺术学", "管理学", "社会学",
   "经济学", "法学", "哲学", "教育学",
   "工程技术", "计算机科学", "地球科学", "数学", "物理与天体物理"].map String.toList

/-- The normalized print identifier of a CAS row
(`row['ISSN/EISSN'] || ''`, split on `/`, part 0 normalized;
`normalizeISSN(undefined)` is `null`, modelled by `Option.bind`). -/
def casIssn (row : Row) : Option (List Char) :=
  ((((rowGet row ("ISSN/EISSN".toList)).getD []).splitOn '/').get? 0).bind normalizeISSN

/-- The normalized electronic identifier of a CAS row (part 1). -/
def casEissn (row : Row) : Option (List Char) :=
  ((((rowGet row ("ISSN/EISSN".toList)).getD []).splitOn '/').get? 1).bind normalizeISSN

/-- `row['大类'] || null`. -/
def casCat (row : Row) : Option (List Char) := optTruthy (rowGet row ("大类".toList))

/-- `excludedCategories.includes(row['大类'] || null)`. -/
def casExcludedHit (row : Row) : Bool :=
  match casCat row with
  | some c => excludedCategories.contains c
  | none => false

/-- Write a freshly allocated record id under a truthy `issn` key and a
truthy, distinct `eissn` key (`if (issn) ...; if (eissn && eissn !== issn) ...`). -/
def writeKeys (idx : List (List Char × Nat)) (issn eissn : Option (List Char))
    (id : Nat) : List (List Char × Nat) :=
  let idx1 := match issn with
    | some i => if i.isEmpty then idx else idxSet idx i id
    | none => idx
  match eissn with
  | some e => if !e.isEmpty && !(some e == issn) then idxSet idx1 e id else idx1
  | none => idx1

/-- One iteration of the converter's CAS (primary-source) loop. -/
def processCasRow (st : RegState) (row : Row) : RegState :=
  if !(jsTruthy (rowGet row ("Journal".toList))) then st
  else
    let issn := casIssn row
    let eissn := casEissn row
    if casExcludedHit row then
      { st with excludedIssns := exAdd (exAdd st.excludedIssns issn) eissn }
    else
      let dv := parseCasDivision (rowGet row ("大类分区".toList))
      let mark := rowGet row ("标注".toList)
      let j : Journal :=
        { name := (rowGet row ("Journal".toList)).getD []
          issn := issn
          eissn := eissn
          casCategory := casCat row
          casQ := dv.1
          casRank := dv.2
          isTop := isTop (rowGet row ("Top".toList))
          isChinaSupport := isChinaSupport mark
          isWarning := isWarning mark
          isMega := isMega mark
          jif := none
          jcrQ := none }
      { store := st.store ++ [j]
        index := writeKeys st.index issn eissn st.store.length
        excludedIssns := st.excludedIssns }

/-- The normalized identifiers of a JCR row. -/
def jcrIssn (row : Row) : Option (List Char) :=
  (rowGet row ("ISSN".toList)).bind normalizeISSN

def jcrEissn (row : Row) : Option (List Char) :=
  (rowGet row ("eISSN".toList)).bind normalizeISSN

/-- `issn && journals[issn]`: heap id of an existing record under a
truthy identifier. -/
def lookupId (st : RegState) (o : Option (List Char)) : Option Nat :=
  match o with
  | none => none
  | some i => if i.isEmpty then none else idxGet st.index i

/-- One iteration of the converter's JCR (secondary-source) loop. -/
def processJcrRow (st : RegState) (row : Row) : RegState :=
  if !(jsTruthy (rowGet row ("Journal".toList))) then st
  else
    let issn := jcrIssn row
    let eissn := jcrEissn row
    if exHasTruthy st.excludedIssns issn || exHasTruthy st.excludedIssns eissn then st
    else
      let ifv := (rowGet row ("IF(2024)".toList)).bind jsParseFloat
      let q := rowGet row ("IF Quartile(2024)".toList)
      match (match lookupId st issn with
             | some id => some id
             | none => lookupId st eissn) with
      | some id =>
        let oldJ := st.store.getD id defaultJournal
        let j1 := match ifv with
          | some v => { oldJ with jif := some v }
          | none => oldJ
        let j2 := if jsTruthy q then { j1 with jcrQ := some (q.getD []) } else j1
        { st with store := st.store.set id j2 }
      | none =>
        let newJ : Journal :=
          { name := (rowGet row ("Journal".toList)).getD []
            issn := issn
            eissn := eissn
            casCategory := none
            casQ := none
            casRank := none
            isTop := false
            isChinaSupport := false
            isWarning := false
            isMega := false
            jif := ifv
            jcrQ := optTruthy q }
        { store := st.store ++ [newJ]
          index := writeKeys st.index issn eissn st.store.length
          excludedIssns := st.excludedIssns }

/-- The two-phase merge of `convert()`: the CAS pass over the primary
source, then the JCR pass over the secondary source. -/
def buildRegistry (cas jcr : List Row) : RegState :=
  jcr.foldl processJcrRow (cas.foldl processCasRow initState)

/-- The suppression set accumulated by the CAS pass alone. -/
def casExcludedSet (cas : List Row) : List (List Char) :=
  (cas.foldl processCasRow initState).excludedIssns

/-- The truthy normalized identifiers a CAS row can ever write or
blacklist. -/
def casRowIds (row : Row) : List (List Char) :=
  (([casIssn row, casEissn row].filterMap id).filter (fun i => !i.isEmpty))

end ConvertCsv

namespace ConvertCsv

/-- The character loop of `parseCSVLine`: `cur` is the field being
accumulated, `acc` the fields already pushed.  A quote toggles the
`inQuotes` state, except that a doubled quote inside quotes appends one
literal quote and skips its twin; an unquoted comma pushes the trimmed
current field; every other character is appended. -/
def parseCSVLineAux : List Char → Bool → List Char → List (List Char) →
    List (List Char)
  | [], _, cur, acc => acc ++ [jsTrim cur]
  | '"' :: '"' :: rest2, true, cur, acc => parseCSVLineAux rest2 true (cur ++ ['"']) acc
  | '"' :: rest, true, cur, acc => parseCSVLineAux rest false cur acc
  | '"' :: rest, false, cur, acc => parseCSVLineAux rest true cur acc
  | ',' :: rest, false, cur, acc => parseCSVLineAux rest false [] (acc ++ [jsTrim cur])
  | c :: rest, inQ, cur, acc => parseCSVLineAux rest inQ (cur ++ [c]) acc

/-- `parseCSVLine(line)`. -/
def parseCSVLine (line : List Char) : List (List Char) :=
  parseCSVLineAux line false [] []

/-- `obj[headers[j]] = values[j] || ''` for every header position. -/
def mkRow (headers values : List (List Char)) : Row :=
  headers.enum.map (fun p => (p.2, (values.get? p.1).getD []))

/-- `parseCSV(content)`: split on newlines, parse the header line, then
parse each trimmed non-blank data line into a row object. -/
def parseCSV (content : List Char) : List Row :=
  match content.splitOn '\n' with
  | [] => []
  | h :: rest =>
    let headers := parseCSVLine h
    rest.filterMap (fun line =>
      let t := jsTrim line
      if t.isEmpty then none else some (mkRow headers (parseCSVLine t)))

/-- CSV-quote a field: wrap in double quotes, doubling every embedded
double quote (the writer convention the parser inverts). -/
def quoteField (s : List Char) : List Char :=
  '"' :: s.flatMap (fun c => if c == '"' then ['"', '"'] else [c]) ++ ['"']

/-- A primary-source row in an excluded category, for exercising the
suppression path. -/
def excludedCasRow : Row :=
  [("Journal".toList, "Bad Journal".toList),
   ("ISSN/EISSN".toList, "1111-2222/3333-4444".toList),
   ("大类".toList, "文学".toList)]

/-- A secondary-source row reintroducing the excluded identifier. -/
def excludedJcrRow : Row :=
  [("Journal".toList, "Bad Journal".toList),
   ("ISSN".toList, "1111-2222".toList),
   ("IF(2024)".toList, "3.2".toList)]

/-- The primary-source row of the end-to-end scenario in the
specification. -/
def cellCasRow : Row :=
  [("Journal".toList, "Cell".toList),
   ("ISSN/EISSN".toList, "0092-8674/1097-4172".toList),
   ("大类".toList, "Biology".toList),
   ("大类分区".toList, "1 [5/300]".toList),
   ("Top".toList, "是".toList)]

/-- The secondary-source row of the end-to-end scenario. -/
def cellJcrRow : Row :=
  [("Journal".toList, "Cell".toList),
   ("ISSN".toList, "0092-8674".toList),
   ("IF(2024)".toList, "45.5".toList),
   ("IF Quartile(2024)".toList, "Q1".toList)]

end ConvertCsv


namespace Background

/-- The coverage loop never counts more matches than there are query
tokens. -/
theorem walkCount_le_qlen (tW qW : List (List Char)) :
    walkCount qW tW ≤ qW.length := by
  induction tW generalizing qW with
  | nil => cases qW <;> simp [walkCount]
  | cons t ts ih =>
    cases qW with
    | nil => simp [walkCount]
    | cons q qs =>
      simp only [walkCount]
      split
      · exact Nat.succ_le_succ (ih qs)
      · exact le_trans (ih (q :: qs)) (by simp)

/-- `Math.max(0, x)` is nonnegative. -/
theorem jsMaxQ_zero_nonneg (x : ℚ) : 0 ≤ jsMaxQ 0 x := by
  unfold jsMaxQ
  split
  · assumption
  · exact le_refl 0

/-- `Math.max(0, x)` keeps an upper bound of `x`. -/
theorem jsMaxQ_zero_le (x b : ℚ) (hx : x ≤ b) (hb : 0 ≤ b) : jsMaxQ 0 x ≤ b := by
  unfold jsMaxQ
  split
  · exact hx
  · exact hb

/-- `Math.max(0, x) = x` when `x` is nonnegative. -/
theorem jsMaxQ_zero_of_nonneg (x : ℚ) (hx : 0 ≤ x) : jsMaxQ 0 x = x := by
  simp [jsMaxQ, hx]

/-- The raw coverage score is in `[0, 100]` whenever it is a number. -/
theorem coverageScore_bounds (qW tW : List (List Char)) (s : ℚ)
    (h : coverageScore qW tW = some s) : 0 ≤ s ∧ s ≤ 100 := by
  unfold coverageScore at h
  split at h
  · exact absurd h (by simp)
  · rename_i hq
    have hlen : 0 < (qW.length : ℚ) := by
      have : qW.length ≠ 0 := by simpa using hq
      exact_mod_cast Nat.pos_of_ne_zero this
    have hs : s = (walkCount qW tW : ℚ) / (qW.length : ℚ) * 100 := by
      simpa using h.symm
    constructor
    · rw [hs]
      positivity
    · rw [hs]
      have hle : (walkCount qW tW : ℚ) / (qW.length : ℚ) ≤ 1 := by
        rw [div_le_one hlen]
        exact_mod_cast walkCount_le_qlen tW qW
      calc (walkCount qW tW : ℚ) / (qW.length : ℚ) * 100 ≤ 1 * 100 := by
            exact mul_le_mul_of_nonneg_right hle (by norm_num)
        _ = 100 := by norm_num

end Background

section
attribute [local semireducible] Rat.add Rat.mul Rat.inv Rat.sub Rat.ofScientific

/-- C8: scoring the abbreviation `"J Biol Chem"` against
`"Journal of Biological Chemistry"` gives full coverage via literal
prefix matches under the greedy two-cursor walk (the unmatched target
token `OF` is skipped), so the score is at least 80 — concretely 98
after the two-point extra-word penalty. -/
theorem c8_abbreviation_coverage :
    ∃ s : ℚ, Background.calculateMatchScore ("J Biol Chem".toList)
      ("Journal of Biological Chemistry".toList) = some s ∧ 80 ≤ s :=
  ⟨98, by decide, by norm_num⟩

end

/-- C7: whenever the query's token list (after normalization and
stop-word removal) ends with a dangling connector from
`{OF, AND, THE, A, AN, IN, ON, FOR}`, the match scorer returns 0 for
every target. -/
theorem c7_truncation_guard (q t w : List Char)
    (hw : (Background.parseName q).getLast? = some w)
    (hmem : w ∈ Background.suspiciousEndings) :
    Background.calculateMatchScore q t = some 0 := by
  have hsusp : Background.suspiciousLast (Background.parseName q) = true := by
    unfold Background.suspiciousLast
    rw [hw]
    exact List.elem_iff.mpr hmem
  unfold Background.calculateMatchScore
  split
  · rfl
  · dsimp only
    simp [hsusp]

/-- C7 witness: `"Journal of"` scores 0 against `"Journal of Finance"`. -/
theorem c7_truncation_guard_witness :
    Background.calculateMatchScore ("Journal of".toList)
      ("Journal of Finance".toList) = some 0 :=
  c7_truncation_guard _ _ ("OF".toList) (by decide) (by decide)

/-- C6: the tie-break penalty is `min(20, 2·extraWords)` and hence never
exceeds 20; a pre-penalty coverage score below 90 is returned exactly as
computed (no penalty, and the final `Math.max(0, ·)` is the identity on
it); a pre-penalty score of at least 90 is returned with exactly the
capped penalty subtracted. -/
theorem c6_tiebreak_penalty :
    (∀ q t : List Char,
      Background.extraWordPenalty (Background.parseName q) (Background.parseName t) ≤ 20) ∧
    (∀ (q t : List Char) (s : ℚ),
      q ≠ [] → t ≠ [] →
      ¬((Background.parseName t).length < (Background.parseName q).length) →
      Background.suspiciousLast (Background.parseName q) = false →
      Background.coverageScore (Background.parseName q) (Background.parseName t) = some s →
      s < 90 →
      Background.calculateMatchScore q t = some s) ∧
    (∀ (q t : List Char) (s : ℚ),
      q ≠ [] → t ≠ [] →
      ¬((Background.parseName t).length < (Background.parseName q).length) →
      Background.suspiciousLast (Background.parseName q) = false →
      Background.coverageScore (Background.parseName q) (Background.parseName t) = some s →
      90 ≤ s →
      Background.calculateMatchScore q t =
        some (s - (Background.extraWordPenalty (Background.parseName q)
          (Background.parseName t) : ℚ))) := by
  refine ⟨fun q t => Nat.min_le_left _ _, ?_, ?_⟩
  · intro q t s hq ht hlen hsusp hcov hlt
    have hqt : (q.isEmpty || t.isEmpty) = false := by simp [hq, ht]
    have hge : 0 ≤ s := (Background.coverageScore_bounds _ _ _ hcov).1
    unfold Background.calculateMatchScore
    rw [if_neg (by simp [hqt])]
    dsimp only
    rw [if_neg hlen, if_neg (by simp [hsusp])]
    unfold Background.scoreMain
    rw [hcov]
    dsimp only
    rw [if_neg (not_le.mpr hlt)]
    rw [Background.jsMaxQ_zero_of_nonneg _ hge]
  · intro q t s hq ht hlen hsusp hcov hge
    have hqt : (q.isEmpty || t.isEmpty) = false := by simp [hq, ht]
    have hpen : (Background.extraWordPenalty (Background.parseName q)
        (Background.parseName t) : ℚ) ≤ 20 := by
      exact_mod_cast Nat.cast_le.mpr (Nat.min_le_left _ _)
    unfold Background.calculateMatchScore
    rw [if_neg (by simp [hqt])]
    dsimp only
    rw [if_neg hlen, if_neg (by simp [hsusp])]
    unfold Background.scoreMain
    rw [hcov]
    dsimp only
    rw [if_pos hge]
    rw [Background.jsMaxQ_zero_of_nonneg _ (by linarith)]

section
attribute [local semireducible] Rat.add Rat.mul Rat.inv Rat.sub Rat.ofScientific

/-- C6 witness: `"Critical Zzz"` against `"Critical Care Medicine"` has
coverage 1/2, a pre-penalty score of 50 < 90, and is returned
unpenalized as 50. -/
theorem c6_tiebreak_penalty_witness :
    Background.calculateMatchScore ("Critical Zzz".toList)
      ("Critical Care Medicine".toList) = some 50 :=
  c6_tiebreak_penalty.2.1 _ _ 50 (by decide) (by decide) (by decide) (by decide)
    (by decide) (by norm_num)

end

/-- C4 counterexample: for the query `"The"` (whose token list is empty
after stop-word removal) against the target `"Journal"`, the coverage
division is `0/0 = NaN`, and `Math.max(0, NaN)` is `NaN` — modelled as
`none` — so the scorer does not return a number in `[0, 100]` as the
claim states. -/
theorem c4_score_range_counterexample :
    Background.calculateMatchScore ("The".toList) ("Journal".toList) = none := by
  decide

/-- C4 amended: whenever the query is empty, the target is empty, or the
query tokenizes to at least one token, the match scorer returns a number
`s` with `0 ≤ s ≤ 100`; only a nonempty query with an empty token list
against a nonempty target yields `NaN` (see the counterexample). -/
theorem c4_score_range_amended (q t : List Char)
    (h : q = [] ∨ t = [] ∨ Background.parseName q ≠ []) :
    ∃ s : ℚ, Background.calculateMatchScore q t = some s ∧ 0 ≤ s ∧ s ≤ 100 := by
  by_cases hqt : (q.isEmpty || t.isEmpty) = true
  · refine ⟨0, ?_, le_refl 0, by norm_num⟩
    unfold Background.calculateMatchScore
    rw [if_pos hqt]
  · have hqW : Background.parseName q ≠ [] := by
      rcases h with h | h | h
      · exact absurd (by simp [h]) hqt
      · exact absurd (by simp [h]) hqt
      · exact h
    unfold Background.calculateMatchScore
    rw [if_neg hqt]
    dsimp only
    by_cases hlen : (Background.parseName t).length < (Background.parseName q).length
    · exact ⟨0, by rw [if_pos hlen], le_refl 0, by norm_num⟩
    · rw [if_neg hlen]
      by_cases hsusp : Background.suspiciousLast (Background.parseName q) = true
      · exact ⟨0, by rw [if_pos hsusp], le_refl 0, by norm_num⟩
      · rw [if_neg hsusp]
        rcases hcov : Background.coverageScore (Background.parseName q)
            (Background.parseName t) with _ | s0
        · exfalso
          unfold Background.coverageScore at hcov
          rw [if_neg (by simpa using hqW)] at hcov
          exact Option.some_ne_none _ hcov
        · obtain ⟨hge, hle⟩ := Background.coverageScore_bounds _ _ _ hcov
          unfold Background.scoreMain
          rw [hcov]
          dsimp only
          refine ⟨_, rfl, Background.jsMaxQ_zero_nonneg _, ?_⟩
          refine Background.jsMaxQ_zero_le _ _ ?_ (by norm_num)
          split
          · have : (0 : ℚ) ≤ (Background.extraWordPenalty (Background.parseName q)
                (Background.parseName t) : ℚ) := by positivity
            linarith
          · exact hle

/-- C4 amended witness: `"Cell"` against `"Cells"` satisfies the token
hypothesis and the score lies in `[0, 100]`. -/
theorem c4_score_range_amended_witness :
    ∃ s : ℚ, Background.calculateMatchScore ("Cell".toList) ("Cells".toList) = some s ∧
      0 ≤ s ∧ s ≤ 100 :=
  c4_score_range_amended _ _ (Or.inr (Or.inr (by decide)))

/-- Facts about every case pair, checked by evaluation: neither side is
whitespace or a hyphen, and the uppercase side is a fixed point of
`jsUpperChar`. -/
theorem lowerUpperPairs_facts : ∀ p ∈ lowerUpperPairs,
    isJsSpace p.1 = false ∧ isJsSpace p.2 = false ∧ p.1 ≠ '-' ∧ p.2 ≠ '-' ∧
    jsUpperChar p.2 = p.2 := by decide

/-- `jsUpperChar` either fixes a character or maps it along a case pair. -/
theorem jsUpperChar_spec (c : Char) :
    jsUpperChar c = c ∨ ∃ p ∈ lowerUpperPairs, p.1 = c ∧ jsUpperChar c = p.2 := by
  unfold jsUpperChar
  cases h : lowerUpperPairs.find? (fun p => p.1 == c) with
  | none => exact Or.inl rfl
  | some p =>
    refine Or.inr ⟨p, List.mem_of_find?_eq_some h, ?_, rfl⟩
    have := List.find?_some h
    simpa using this

/-- Uppercasing is idempotent on characters. -/
theorem jsUpperChar_idem (c : Char) : jsUpperChar (jsUpperChar c) = jsUpperChar c := by
  rcases jsUpperChar_spec c with h | ⟨p, hp, _, h⟩
  · rw [h, h]
  · rw [h]
    exact (lowerUpperPairs_facts p hp).2.2.2.2

/-- Uppercasing preserves whitespace-ness. -/
theorem isJsSpace_jsUpperChar (c : Char) : isJsSpace (jsUpperChar c) = isJsSpace c := by
  rcases jsUpperChar_spec c with h | ⟨p, hp, hc, h⟩
  · rw [h]
  · rw [h, ← hc]
    rw [(lowerUpperPairs_facts p hp).1, (lowerUpperPairs_facts p hp).2.1]

/-- Uppercasing neither creates nor destroys a hyphen. -/
theorem jsUpperChar_eq_hyphen (c : Char) : jsUpperChar c = '-' ↔ c = '-' := by
  rcases jsUpperChar_spec c with h | ⟨p, hp, hc, h⟩
  · rw [h]
  · rw [h, ← hc]
    have hf := lowerUpperPairs_facts p hp
    exact ⟨fun h2 => absurd h2 hf.2.2.2.1, fun h2 => absurd h2 hf.2.2.1⟩

/-- A map whose function fixes every member fixes the list. -/
theorem map_fixed_of_mem {α : Type} {f : α → α} :
    ∀ l : List α, (∀ c ∈ l, f c = c) → l.map f = l
  | [], _ => rfl
  | c :: rest, h => by
    rw [List.map_cons, h c (by simp), map_fixed_of_mem rest (fun d hd => h d (by simp [hd]))]

/-- Members of `stripUpper x` are uppercase fixed points and never
whitespace. -/
theorem mem_stripUpper (x : List Char) :
    ∀ c ∈ stripUpper x, isJsSpace c = false ∧ jsUpperChar c = c := by
  intro c hc
  unfold stripUpper at hc
  rcases List.mem_map.mp hc with ⟨c0, hc0, rfl⟩
  have hf := List.mem_filter.mp hc0
  have hs0 : isJsSpace c0 = false := by simpa using hf.2
  exact ⟨by rw [isJsSpace_jsUpperChar, hs0], jsUpperChar_idem c0⟩

/-- `stripUpper` fixes any list of non-whitespace uppercase fixed points. -/
theorem stripUpper_fixed (l : List Char)
    (h : ∀ c ∈ l, isJsSpace c = false ∧ jsUpperChar c = c) : stripUpper l = l := by
  unfold stripUpper
  rw [List.filter_eq_self.mpr (fun c hc => by simp [(h c hc).1]),
    map_fixed_of_mem l (fun c hc => (h c hc).2)]

/-- Members of `hyphenateIfNeeded s` are the hyphen or members of `s`. -/
theorem mem_hyphenateIfNeeded (s : List Char) (c : Char)
    (hc : c ∈ hyphenateIfNeeded s) : c = '-' ∨ c ∈ s := by
  unfold hyphenateIfNeeded at hc
  split at hc
  · rcases List.mem_append.mp hc with h | h
    · exact Or.inr (List.mem_of_mem_take h)
    · rcases List.mem_cons.mp h with h | h
      · exact Or.inl h
      · exact Or.inr (List.mem_of_mem_drop h)
  · exact Or.inr hc

/-- `hyphenateIfNeeded` is idempotent. -/
theorem hyphenateIfNeeded_idem (s : List Char) :
    hyphenateIfNeeded (hyphenateIfNeeded s) = hyphenateIfNeeded s := by
  by_cases h : (s.length == 8 && !(s.contains '-')) = true
  · have h1 : hyphenateIfNeeded s = s.take 4 ++ '-' :: s.drop 4 := by
      rw [hyphenateIfNeeded, if_pos h]
    rw [h1, hyphenateIfNeeded, if_neg]
    intro hcon
    have hmem : (s.take 4 ++ '-' :: s.drop 4).contains '-' = true :=
      List.elem_iff.mpr (by simp)
    rw [hmem] at hcon
    simp at hcon
  · have h1 : hyphenateIfNeeded s = s := by rw [hyphenateIfNeeded, if_neg h]
    rw [h1, h1]

/-- `hyphenateIfNeeded` never empties a nonempty string. -/
theorem hyphenateIfNeeded_ne_nil (s : List Char) (h : s ≠ []) :
    hyphenateIfNeeded s ≠ [] := by
  unfold hyphenateIfNeeded
  split
  · simp
  · exact h

/-- Members of the query normalizer's output: no whitespace, no hyphen,
uppercase fixed points. -/
theorem mem_bg_normalizeISSN (x : List Char) :
    ∀ c ∈ Background.normalizeISSN x,
      isJsSpace c = false ∧ c ≠ '-' ∧ jsUpperChar c = c := by
  intro c hc
  unfold Background.normalizeISSN at hc
  split at hc
  · simp at hc
  · rcases List.mem_map.mp hc with ⟨c0, hc0, rfl⟩
    have hf := List.mem_filter.mp hc0
    have hs0 : isJsSpace c0 = false ∧ (c0 == '-') = false := by
      have := hf.2
      simp only [Bool.not_eq_eq_eq_not, Bool.not_true, Bool.or_eq_false_iff] at this
      exact this
    refine ⟨by rw [isJsSpace_jsUpperChar, hs0.1], ?_, jsUpperChar_idem c0⟩
    intro hcon
    exact absurd ((jsUpperChar_eq_hyphen c0).mp hcon) (by simpa using hs0.2)

/-- C2 counterexample: the converter's normalizer is not idempotent.  For
the lowercase sentinel variant `"n/a"`, one application yields the string
`"N/A"`, but a second application hits the sentinel guard and collapses
to `null` (the JS composition `normalizeISSN(normalizeISSN("n/a"))` is
`null ≠ "N/A"`; `Option.bind` models the composition with `null`
propagation). -/
theorem c2_idempotence_counterexample :
    (ConvertCsv.normalizeISSN ("n/a".toList)).bind ConvertCsv.normalizeISSN ≠
      ConvertCsv.normalizeISSN ("n/a".toList) := by
  decide

/-- C2 amended: the extension background's query normalizer and the
NiceMed background's query normalizer are idempotent on every input; the
converter's build-time normalizer is idempotent on every input except the
non-canonical sentinel/whitespace-only strings — inputs whose
strip-and-uppercase image is `""` or exactly `"N/A"` without the input
being `""` or `"N/A"` itself (see the counterexample). -/
theorem c2_idempotence_amended :
    (∀ x : List Char,
      Background.normalizeISSN (Background.normalizeISSN x) =
        Background.normalizeISSN x) ∧
    (∀ x : List Char,
      NmBackground.normalizeISSN (NmBackground.normalizeISSN x) =
        NmBackground.normalizeISSN x) ∧
    (∀ x : List Char,
      x = [] ∨ x = "N/A".toList ∨ (stripUpper x ≠ [] ∧ stripUpper x ≠ "N/A".toList) →
      (ConvertCsv.normalizeISSN x).bind ConvertCsv.normalizeISSN =
        ConvertCsv.normalizeISSN x) := by
  refine ⟨?_, ?_, ?_⟩
  · intro x
    by_cases hx : x.isEmpty = true
    · have h1 : Background.normalizeISSN x = [] := by
        rw [Background.normalizeISSN, if_pos hx]
      rw [h1]
      decide
    · have h1 : Background.normalizeISSN x =
          (x.filter (fun c => !(isJsSpace c || c == '-'))).map jsUpperChar := by
        rw [Background.normalizeISSN, if_neg hx]
      have hmem := mem_bg_normalizeISSN x
      by_cases hy : (Background.normalizeISSN x).isEmpty = true
      · rw [Background.normalizeISSN, if_pos hy]
        simpa using hy.symm
      · rw [Background.normalizeISSN, if_neg hy]
        rw [List.filter_eq_self.mpr (fun c hc => by
          simp [(hmem c hc).1, (hmem c hc).2.1])]
        exact map_fixed_of_mem _ (fun c hc => (hmem c hc).2.2)
  · intro x
    by_cases hx : x.isEmpty = true
    · have h1 : NmBackground.normalizeISSN x = [] := by
        rw [NmBackground.normalizeISSN, if_pos hx]
      rw [h1]
      decide
    · have h1 : NmBackground.normalizeISSN x = hyphenateIfNeeded (stripUpper x) := by
        rw [NmBackground.normalizeISSN, if_neg hx]
      rw [h1]
      by_cases hy : (hyphenateIfNeeded (stripUpper x)).isEmpty = true
      · rw [NmBackground.normalizeISSN, if_pos hy]
        simpa using hy.symm
      · rw [NmBackground.normalizeISSN, if_neg hy]
        have hfix : stripUpper (hyphenateIfNeeded (stripUpper x)) =
            hyphenateIfNeeded (stripUpper x) := by
          refine stripUpper_fixed _ (fun c hc => ?_)
          rcases mem_hyphenateIfNeeded _ _ hc with rfl | hc2
          · exact ⟨by decide, by decide⟩
          · exact mem_stripUpper x c hc2
        rw [hfix, hyphenateIfNeeded_idem]
  · intro x h
    rcases h with rfl | rfl | ⟨hz1, hz2⟩
    · decide
    · decide
    · have hx1 : x.isEmpty = false := by
        cases x with
        | nil => exact absurd (by decide) hz1
        | cons c rest => rfl
      have hx2 : x ≠ "N/A".toList := fun hcon => hz2 (by rw [hcon]; decide)
      have h1 : ConvertCsv.normalizeISSN x =
          some (hyphenateIfNeeded (stripUpper x)) := by
        rw [ConvertCsv.normalizeISSN,
          if_neg (by simp [hx1]; exact fun hcon => hx2 (hcon.trans (by decide)))]
      rw [h1]
      show ConvertCsv.normalizeISSN (hyphenateIfNeeded (stripUpper x)) =
        some (hyphenateIfNeeded (stripUpper x))
      have hyne : hyphenateIfNeeded (stripUpper x) ≠ [] :=
        hyphenateIfNeeded_ne_nil _ hz1
      have hyna : hyphenateIfNeeded (stripUpper x) ≠ "N/A".toList := by
        intro heq
        revert heq
        unfold hyphenateIfNeeded
        split
        · intro heq
          have hmm : '-' ∈ "N/A".toList := by
            rw [← heq]
            simp
          simp at hmm
        · exact fun heq => hz2 heq
      rw [ConvertCsv.normalizeISSN,
        if_neg (by
          simp [List.isEmpty_iff, hyne]
          exact fun hcon => hyna (hcon.trans (by decide)))]
      have hfix : stripUpper (hyphenateIfNeeded (stripUpper x)) =
          hyphenateIfNeeded (stripUpper x) := by
        refine stripUpper_fixed _ (fun c hc => ?_)
        rcases mem_hyphenateIfNeeded _ _ hc with rfl | hc2
        · exact ⟨by decide, by decide⟩
        · exact mem_stripUpper x c hc2
      rw [hfix, hyphenateIfNeeded_idem]

/-- C2 amended witness: the converter's normalizer is idempotent at the
unhyphenated identifier `"00928674"`. -/
theorem c2_idempotence_amended_witness :
    (ConvertCsv.normalizeISSN ("00928674".toList)).bind ConvertCsv.normalizeISSN =
      ConvertCsv.normalizeISSN ("00928674".toList) :=
  c2_idempotence_amended.2.2 _ (Or.inr (Or.inr (by decide)))

/-- C3: the build-time normalizer and the NiceMed background's query
normalizer canonicalize `" 00928674 "` to the hyphenated `"0092-8674"`
(matching the registry keys), but the extension background script's
query normalizer (`extension/background.js`) instead DELETES the hyphen
and never re-inserts it: it maps the already-canonical `"0092-8674"` —
and the 8-digit `"00928674"` — to the unhyphenated `"00928674"`, a key
under which the hyphen-keyed registry can never score a hit.  This
contradicts the sibling NiceMed implementation, whose comment states the
hyphen must be preserved "to match journals.json keys". -/
theorem c3_normalizer_contract_divergence :
    ConvertCsv.normalizeISSN (" 00928674 ".toList) = some ("0092-8674".toList) ∧
    NmBackground.normalizeISSN (" 00928674 ".toList) = "0092-8674".toList ∧
    NmBackground.normalizeISSN ("0092-8674".toList) = "0092-8674".toList ∧
    Background.normalizeISSN ("0092-8674".toList) = "00928674".toList ∧
    Background.normalizeISSN ("00928674".toList) = "00928674".toList := by
  decide

namespace ConvertCsv

/-- Equation: an opening quote outside quoted state enters quoted state. -/
theorem parseCSVLineAux_quote_false (rest cur : List Char) (acc : List (List Char)) :
    parseCSVLineAux ('"' :: rest) false cur acc = parseCSVLineAux rest true cur acc := by
  rw [parseCSVLineAux.eq_def]
  split
  case h_6 =>
    rename_i c r heq hqq hq1 hq2 hcm
    exact ((hq2 (List.cons.inj heq).1.symm) rfl).elim
  all_goals simp_all

/-- Equation: a doubled quote inside quoted state appends one literal
quote and skips its twin. -/
theorem parseCSVLineAux_quote_quote (rest cur : List Char) (acc : List (List Char)) :
    parseCSVLineAux ('"' :: '"' :: rest) true cur acc =
      parseCSVLineAux rest true (cur ++ ['"']) acc := by
  rfl

/-- Equation: a lone closing quote at end of line leaves quoted state. -/
theorem parseCSVLineAux_quote_true_nil (cur : List Char) (acc : List (List Char)) :
    parseCSVLineAux ['"'] true cur acc = parseCSVLineAux [] false cur acc := by
  rfl

/-- Equation: a quote inside quoted state not followed by another quote
leaves quoted state. -/
theorem parseCSVLineAux_quote_true_cons (c2 : Char) (rest cur : List Char)
    (acc : List (List Char)) (hc : c2 ≠ '"') :
    parseCSVLineAux ('"' :: c2 :: rest) true cur acc =
      parseCSVLineAux (c2 :: rest) false cur acc := by
  rw [parseCSVLineAux.eq_def]
  split
  case h_6 =>
    rename_i c r heq hqq hq1 hq2 hcm
    exact ((hq1 (List.cons.inj heq).1.symm) rfl).elim
  all_goals simp_all

/-- Equation: an unquoted comma pushes the trimmed current field. -/
theorem parseCSVLineAux_comma_false (rest cur : List Char) (acc : List (List Char)) :
    parseCSVLineAux (',' :: rest) false cur acc =
      parseCSVLineAux rest false [] (acc ++ [jsTrim cur]) := by
  rw [parseCSVLineAux.eq_def]
  split
  case h_6 =>
    rename_i c r heq hqq hq1 hq2 hcm
    exact ((hcm (List.cons.inj heq).1.symm) rfl).elim
  all_goals simp_all

/-- Equation: any other character is appended to the current field. -/
theorem parseCSVLineAux_other (c : Char) (rest cur : List Char)
    (acc : List (List Char)) (inQ : Bool) (hc : c ≠ '"')
    (hcm : ¬(c = ',' ∧ inQ = false)) :
    parseCSVLineAux (c :: rest) inQ cur acc =
      parseCSVLineAux rest inQ (cur ++ [c]) acc := by
  rw [parseCSVLineAux.eq_def]
  split
  all_goals simp_all

end ConvertCsv

namespace ConvertCsv

/-- Inside a quoted field, the parser copies the escaped body verbatim
into the current field and on the closing quote leaves quoted state. -/
theorem parseCSVLineAux_quoted_body (s : List Char) : ∀ cur : List Char,
    ∀ acc : List (List Char),
    parseCSVLineAux
      (s.flatMap (fun c => if c == '"' then ['"', '"'] else [c]) ++ ['"'])
      true cur acc = acc ++ [jsTrim (cur ++ s)] := by
  induction s with
  | nil =>
    intro cur acc
    simp only [List.flatMap_nil, List.nil_append, List.append_nil]
    rw [parseCSVLineAux_quote_true_nil]
    rfl
  | cons c s2 ih =>
    intro cur acc
    by_cases hc : c = '"'
    · subst hc
      simp only [List.flatMap_cons, beq_self_eq_true, if_pos, List.cons_append,
        List.append_assoc]
      rw [parseCSVLineAux_quote_quote]
      simp only [List.nil_append]
      rw [ih]
      simp
    · have hne : (c == '"') = false := by simpa using hc
      simp only [List.flatMap_cons, hne, Bool.false_eq_true, if_false,
        List.cons_append, List.singleton_append, List.nil_append]
      rw [parseCSVLineAux_other c _ _ _ true hc (by simp), ih]
      simp

end ConvertCsv

/-- C9: quoted-field parsing round-trips.  In general, a single
CSV-quoted field (embedded commas kept, embedded quotes doubled) parses
back to exactly one field holding the trimmed literal body; in
particular the source-written field `"Cell, ""Press"""` parses to the
single literal value `Cell, "Press"`. -/
theorem c9_quoted_field_roundtrip :
    (∀ s : List Char,
      ConvertCsv.parseCSVLine (ConvertCsv.quoteField s) = [jsTrim s]) ∧
    ConvertCsv.parseCSVLine ("\"Cell, \"\"Press\"\"\"".toList) =
      [("Cell, \"Press\"").toList] := by
  constructor
  · intro s
    unfold ConvertCsv.parseCSVLine ConvertCsv.quoteField
    simp only [List.cons_append]
    rw [ConvertCsv.parseCSVLineAux_quote_false,
      ConvertCsv.parseCSVLineAux_quoted_body]
    simp
  · decide

/-- `jsTrim` written with `List.rdropWhile`. -/
theorem jsTrim_eq_rdrop (s : List Char) :
    jsTrim s = List.rdropWhile isJsSpace (List.dropWhile isJsSpace s) := rfl

/-- `String.prototype.trim` is idempotent. -/
theorem jsTrim_idem (s : List Char) : jsTrim (jsTrim s) = jsTrim s := by
  rw [jsTrim_eq_rdrop s, jsTrim_eq_rdrop]
  have h1 : List.dropWhile isJsSpace
      (List.rdropWhile isJsSpace (List.dropWhile isJsSpace s)) =
      List.rdropWhile isJsSpace (List.dropWhile isJsSpace s) := by
    cases hr : List.rdropWhile isJsSpace (List.dropWhile isJsSpace s) with
    | nil => rfl
    | cons c t =>
      have hpref : List.rdropWhile isJsSpace (List.dropWhile isJsSpace s) <+:
          List.dropWhile isJsSpace s := List.rdropWhile_prefix _ _
      rw [hr] at hpref
      obtain ⟨t2, ht2⟩ := hpref
      have ha2 : List.dropWhile isJsSpace s = c :: (t ++ t2) := by
        rw [← ht2]
        simp
      have hne : List.dropWhile isJsSpace s ≠ [] := by
        rw [ha2]
        simp
      have hh := List.head?_dropWhile_not isJsSpace s
      rw [ha2] at hh
      simp only [List.head?_cons] at hh
      exact List.dropWhile_cons_of_neg (by simp [hh])
  rw [h1, List.rdropWhile_idempotent]

/-- Equation: end of line pushes the trimmed current field. -/
theorem parseCSVLineAux_nil (inQ : Bool) (cur : List Char) (acc : List (List Char)) :
    ConvertCsv.parseCSVLineAux [] inQ cur acc = acc ++ [jsTrim cur] := by
  rw [ConvertCsv.parseCSVLineAux.eq_def]

/-- Every field emitted by the parser loop is either inherited from the
accumulator or is the `jsTrim` of some accumulated text. -/
theorem parseCSVLineAux_mem_shape :
    ∀ (n : Nat) (line : List Char), line.length ≤ n → ∀ (inQ : Bool) (cur : List Char)
      (acc : List (List Char)) (f : List Char),
      f ∈ ConvertCsv.parseCSVLineAux line inQ cur acc →
      f ∈ acc ∨ ∃ g, f = jsTrim g := by
  intro n
  induction n with
  | zero =>
    intro line hlen inQ cur acc f hf
    have hnil : line = [] := List.length_eq_zero.mp (Nat.le_zero.mp hlen)
    subst hnil
    rw [parseCSVLineAux_nil] at hf
    rcases List.mem_append.mp hf with h | h
    · exact Or.inl h
    · exact Or.inr ⟨cur, by simpa using h⟩
  | succ n ih =>
    intro line hlen inQ cur acc f hf
    cases line with
    | nil =>
      rw [parseCSVLineAux_nil] at hf
      rcases List.mem_append.mp hf with h | h
      · exact Or.inl h
      · exact Or.inr ⟨cur, by simpa using h⟩
    | cons c rest =>
      by_cases hc : c = '"'
      · subst hc
        cases inQ with
        | false =>
          rw [ConvertCsv.parseCSVLineAux_quote_false] at hf
          exact ih rest (by simp at hlen; omega) true cur acc f hf
        | true =>
          cases rest with
          | nil =>
            rw [ConvertCsv.parseCSVLineAux_quote_true_nil] at hf
            exact ih [] (by simp) false cur acc f hf
          | cons c2 rest2 =>
            by_cases hc2 : c2 = '"'
            · subst hc2
              rw [ConvertCsv.parseCSVLineAux_quote_quote] at hf
              exact ih rest2 (by simp at hlen; omega) true (cur ++ ['"']) acc f hf
            · rw [ConvertCsv.parseCSVLineAux_quote_true_cons _ _ _ _ hc2] at hf
              exact ih (c2 :: rest2) (by simp at hlen ⊢; omega) false cur acc f hf
      · by_cases hcm : c = ',' ∧ inQ = false
        · obtain ⟨rfl, rfl⟩ := hcm
          rw [ConvertCsv.parseCSVLineAux_comma_false] at hf
          rcases ih rest (by simp at hlen; omega) false [] (acc ++ [jsTrim cur]) f hf
            with h | h
          · rcases List.mem_append.mp h with h2 | h2
            · exact Or.inl h2
            · exact Or.inr ⟨cur, by simpa using h2⟩
          · exact Or.inr h
        · rw [ConvertCsv.parseCSVLineAux_other _ _ _ _ _ hc hcm] at hf
          exact ih rest (by simp at hlen; omega) inQ (cur ++ [c]) acc f hf

/-- C10: the tabular ingestion trims every parsed field — each field the
line parser emits is a fixed point of `jsTrim` (so edge whitespace never
survives, including inside quoted fields), every field value stored in a
row object of `parseCSV` is likewise trim-fixed, and concretely a quoted
field with padded whitespace parses to its trimmed body. -/
theorem c10_fields_trimmed :
    (∀ line f : List Char, f ∈ ConvertCsv.parseCSVLine line → jsTrim f = f) ∧
    (∀ (content : List Char) (row : ConvertCsv.Row) (kv : List Char × List Char),
      row ∈ ConvertCsv.parseCSV content → kv ∈ row → jsTrim kv.2 = kv.2) ∧
    ConvertCsv.parseCSVLine ("\"  padded  \"".toList) = ["padded".toList] := by
  have hfield : ∀ line f : List Char, f ∈ ConvertCsv.parseCSVLine line → jsTrim f = f := by
    intro line f hf
    rcases parseCSVLineAux_mem_shape line.length line (le_refl _) false [] [] f hf
      with h | ⟨g, rfl⟩
    · simp at h
    · exact jsTrim_idem g
  refine ⟨hfield, ?_, by decide⟩
  intro content row kv hrow hkv
  unfold ConvertCsv.parseCSV at hrow
  rcases hsp : content.splitOn '\n' with _ | ⟨hd, rest⟩
  · rw [hsp] at hrow
    simp at hrow
  · rw [hsp] at hrow
    simp only [List.mem_filterMap] at hrow
    obtain ⟨line, hline, heq⟩ := hrow
    by_cases hte : (jsTrim line).isEmpty = true
    · rw [if_pos hte] at heq
      exact absurd heq (by simp)
    · rw [if_neg hte] at heq
      have hrow2 : row = ConvertCsv.mkRow (ConvertCsv.parseCSVLine hd)
          (ConvertCsv.parseCSVLine (jsTrim line)) := by
        exact (Option.some.inj heq).symm
      subst hrow2
      unfold ConvertCsv.mkRow at hkv
      rcases List.mem_map.mp hkv with ⟨p, hp, rfl⟩
      rcases hv : (ConvertCsv.parseCSVLine (jsTrim line)).get? p.1 with _ | v
      · simp only [hv, Option.getD_none]
        decide
      · simp only [hv, Option.getD_some]
        exact hfield _ _ (List.get?_mem hv)

/-- C10 witness: the single-field line `"Cell"` parses to a trim-fixed
field. -/
theorem c10_fields_trimmed_witness :
    jsTrim ("Cell".toList) = "Cell".toList :=
  c10_fields_trimmed.1 ("Cell".toList) ("Cell".toList) (by decide)

namespace ConvertCsv

/-- Key lookup on the empty index misses. -/
theorem idxGet_nil (k : List Char) : idxGet [] k = none := rfl

/-- Key lookup distributes over cons. -/
theorem idxGet_cons (p : List Char × Nat) (rest : List (List Char × Nat))
    (k : List Char) :
    idxGet (p :: rest) k = if p.1 == k then some p.2 else idxGet rest k := by
  by_cases hp : (p.1 == k) = true
  · rw [if_pos hp]
    simp [idxGet, hp]
  · rw [if_neg hp]
    simp [idxGet, hp]

/-- Overwriting an existing key rewrites the head when it matches. -/
theorem idxSet_cons_pos (p : List Char × Nat) (rest : List (List Char × Nat))
    (k : List Char) (v : Nat) (hp : (p.1 == k) = true) :
    idxSet (p :: rest) k v =
      (k, v) :: rest.map (fun q => if q.1 == k then (k, v) else q) := by
  unfold idxSet
  rw [if_pos (by simp [List.any_cons, hp]), List.map_cons, if_pos hp]

/-- Setting a key walks past a non-matching head. -/
theorem idxSet_cons_neg (p : List Char × Nat) (rest : List (List Char × Nat))
    (k : List Char) (v : Nat) (hp : (p.1 == k) = false) :
    idxSet (p :: rest) k v = p :: idxSet rest k v := by
  unfold idxSet
  by_cases har : rest.any (fun q => q.1 == k) = true
  · rw [if_pos (by simp [List.any_cons, hp, har]), if_pos har, List.map_cons,
      if_neg (by simp [hp])]
  · have h2 : (if rest.any (fun q => q.1 == k) = true then
        rest.map (fun q => if q.1 == k then (k, v) else q) else rest ++ [(k, v)]) =
        rest ++ [(k, v)] := by rw [if_neg har]
    rw [if_neg (by simp [List.any_cons, hp, har]), h2, List.cons_append]

/-- Writing a key binds it to the written id. -/
theorem idxGet_idxSet_self (idx : List (List Char × Nat)) (k : List Char) (v : Nat) :
    idxGet (idxSet idx k v) k = some v := by
  induction idx with
  | nil =>
    have h1 : idxSet [] k v = [(k, v)] := by unfold idxSet; simp
    rw [h1, idxGet_cons, if_pos (by simp)]
  | cons p rest ih =>
    by_cases hp : (p.1 == k) = true
    · rw [idxSet_cons_pos p rest k v hp, idxGet_cons, if_pos (by simp)]
    · rw [idxSet_cons_neg p rest k v (by simpa using hp), idxGet_cons, if_neg hp]
      exact ih

/-- Overwriting key `k` in place leaves every other key's binding alone. -/
theorem idxGet_map_overwrite (rest : List (List Char × Nat)) (k k2 : List Char)
    (v : Nat) (h : k2 ≠ k) :
    idxGet (rest.map (fun q => if q.1 == k then (k, v) else q)) k2 = idxGet rest k2 := by
  induction rest with
  | nil => rfl
  | cons q rest2 ih =>
    rw [List.map_cons]
    by_cases hq : (q.1 == k) = true
    · rw [if_pos hq, idxGet_cons, idxGet_cons,
        if_neg (by simp [Ne.symm h]), if_neg (by simp [eq_of_beq hq, Ne.symm h])]
      exact ih
    · rw [if_neg hq, idxGet_cons, idxGet_cons]
      by_cases hq2 : (q.1 == k2) = true
      · rw [if_pos hq2, if_pos hq2]
      · rw [if_neg hq2, if_neg hq2]
        exact ih

/-- Writing one key leaves every other key's binding unchanged. -/
theorem idxGet_idxSet_ne (idx : List (List Char × Nat)) (k k2 : List Char) (v : Nat)
    (h : k2 ≠ k) :
    idxGet (idxSet idx k v) k2 = idxGet idx k2 := by
  induction idx with
  | nil =>
    have h1 : idxSet [] k v = [(k, v)] := by unfold idxSet; simp
    rw [h1, idxGet_cons, if_neg (by simp [Ne.symm h]), idxGet_nil]
  | cons p rest ih =>
    by_cases hp : (p.1 == k) = true
    · rw [idxSet_cons_pos p rest k v hp, idxGet_cons,
        if_neg (by simp [Ne.symm h]), idxGet_map_overwrite rest k k2 v h, idxGet_cons,
        if_neg (by simp [eq_of_beq hp, Ne.symm h])]
    · rw [idxSet_cons_neg p rest k v (by simpa using hp), idxGet_cons, idxGet_cons]
      by_cases hq2 : (p.1 == k2) = true
      · rw [if_pos hq2, if_pos hq2]
      · rw [if_neg hq2, if_neg hq2]
        exact ih

end ConvertCsv

namespace ConvertCsv

/-- Writing a record id under both identifiers binds both keys to it. -/
theorem writeKeys_both (idx : List (List Char × Nat)) (i e : List Char) (id : Nat)
    (hi : i ≠ []) (he : e ≠ []) (hei : e ≠ i) :
    idxGet (writeKeys idx (some i) (some e) id) i = some id ∧
    idxGet (writeKeys idx (some i) (some e) id) e = some id := by
  have h1 : writeKeys idx (some i) (some e) id = idxSet (idxSet idx i id) e id := by
    unfold writeKeys
    dsimp only
    rw [if_pos (by simp [he, hei]), if_neg (by simpa using hi)]
  rw [h1]
  constructor
  · rw [idxGet_idxSet_ne _ e i id (Ne.symm hei)]
    exact idxGet_idxSet_self idx i id
  · exact idxGet_idxSet_self _ e id

/-- A row with a falsy journal name is skipped by the CAS pass. -/
theorem processCasRow_skip (st : RegState) (row : Row)
    (h : jsTruthy (rowGet row ("Journal".toList)) = false) :
    processCasRow st row = st := by
  unfold processCasRow
  rw [if_pos (by rw [h]; rfl)]

/-- An excluded CAS row only feeds the suppression set. -/
theorem processCasRow_excluded_eq (st : RegState) (row : Row)
    (h1 : jsTruthy (rowGet row ("Journal".toList)) = true)
    (h2 : casExcludedHit row = true) :
    processCasRow st row =
      { st with
        excludedIssns := exAdd (exAdd st.excludedIssns (casIssn row)) (casEissn row) } := by
  unfold processCasRow
  rw [if_neg (by rw [h1]; decide), if_pos h2]

/-- An admitted CAS row allocates a fresh record, registers it under its
identifiers, and leaves the suppression set alone. -/
theorem processCasRow_admitted_proj (st : RegState) (row : Row)
    (h1 : jsTruthy (rowGet row ("Journal".toList)) = true)
    (h2 : casExcludedHit row = false) :
    (processCasRow st row).index =
      writeKeys st.index (casIssn row) (casEissn row) st.store.length ∧
    (processCasRow st row).excludedIssns = st.excludedIssns := by
  unfold processCasRow
  rw [if_neg (by rw [h1]; decide), if_neg (by rw [h2]; decide)]
  exact ⟨rfl, rfl⟩

/-- The JCR pass never changes the suppression set. -/
theorem processJcrRow_excludedIssns (st : RegState) (row : Row) :
    (processJcrRow st row).excludedIssns = st.excludedIssns := by
  unfold processJcrRow
  split
  · rfl
  · dsimp only
    split
    · rfl
    · split
      · rfl
      · rfl

/-- A JCR row carrying a suppressed identifier (or a falsy name) leaves
the state untouched. -/
theorem processJcrRow_skip_blacklisted (st : RegState) (row : Row)
    (h : (exHasTruthy st.excludedIssns (jcrIssn row) ||
      exHasTruthy st.excludedIssns (jcrEissn row)) = true) :
    processJcrRow st row = st := by
  unfold processJcrRow
  split
  · rfl
  · dsimp only
    rw [if_pos h]


/-- The index after a JCR row: unchanged, or extended by the two keys of
a freshly created record after the suppression check passed. -/
theorem processJcrRow_index_cases (st : RegState) (row : Row) :
    (processJcrRow st row).index = st.index ∨
    ((exHasTruthy st.excludedIssns (jcrIssn row) ||
        exHasTruthy st.excludedIssns (jcrEissn row)) = false ∧
      (processJcrRow st row).index =
        writeKeys st.index (jcrIssn row) (jcrEissn row) st.store.length) := by
  unfold processJcrRow
  split
  · exact Or.inl rfl
  · dsimp only
    split
    · exact Or.inl rfl
    · rename_i hguard
      split
      · exact Or.inl rfl
      · exact Or.inr ⟨by simpa using hguard, rfl⟩

/-- A JCR row whose identifiers pass the suppression check and miss the
index creates a fresh record registered under its identifiers. -/
theorem processJcrRow_new_proj (st : RegState) (row : Row)
    (h1 : jsTruthy (rowGet row ("Journal".toList)) = true)
    (hbl : (exHasTruthy st.excludedIssns (jcrIssn row) ||
      exHasTruthy st.excludedIssns (jcrEissn row)) = false)
    (hl1 : lookupId st (jcrIssn row) = none)
    (hl2 : lookupId st (jcrEissn row) = none) :
    (processJcrRow st row).index =
      writeKeys st.index (jcrIssn row) (jcrEissn row) st.store.length := by
  unfold processJcrRow
  rw [if_neg (by rw [h1]; decide), if_neg (by rw [hbl]; decide), hl1, hl2]

end ConvertCsv

section
attribute [local semireducible] Rat.add Rat.mul Rat.inv Rat.sub Rat.ofScientific

/-- C1: one record instance under both identifier keys.  (1) Admitting a
CAS row with a truthy `issn` and a distinct truthy `eissn` binds both
keys to the same freshly allocated heap id.  (2) A JCR row that passes
the suppression check and matches no existing record likewise binds both
of its identifiers to one fresh id.  (3) End to end, merging the primary
`Cell` row with the secondary `Cell` row (which carries only the print
ISSN) yields a registry in which `0092-8674` and `1097-4172` resolve to
the same record id 0 whose record carries the merged
`impactFactor = 45.5`, `impactQuartile = "Q1"`, `isTop = true`,
`classificationTier = 1` — so the merge performed via one identifier is
visible under the other. -/
theorem c1_same_record_under_both_keys :
    (∀ (st : ConvertCsv.RegState) (row : ConvertCsv.Row) (i e : List Char),
      ConvertCsv.jsTruthy (ConvertCsv.rowGet row ("Journal".toList)) = true →
      ConvertCsv.casExcludedHit row = false →
      ConvertCsv.casIssn row = some i → i ≠ [] →
      ConvertCsv.casEissn row = some e → e ≠ [] → e ≠ i →
      ConvertCsv.idxGet (ConvertCsv.processCasRow st row).index i =
        some st.store.length ∧
      ConvertCsv.idxGet (ConvertCsv.processCasRow st row).index e =
        some st.store.length) ∧
    (∀ (st : ConvertCsv.RegState) (row : ConvertCsv.Row) (i e : List Char),
      ConvertCsv.jsTruthy (ConvertCsv.rowGet row ("Journal".toList)) = true →
      (ConvertCsv.exHasTruthy st.excludedIssns (ConvertCsv.jcrIssn row) ||
        ConvertCsv.exHasTruthy st.excludedIssns (ConvertCsv.jcrEissn row)) = false →
      ConvertCsv.lookupId st (ConvertCsv.jcrIssn row) = none →
      ConvertCsv.lookupId st (ConvertCsv.jcrEissn row) = none →
      ConvertCsv.jcrIssn row = some i → i ≠ [] →
      ConvertCsv.jcrEissn row = some e → e ≠ [] → e ≠ i →
      ConvertCsv.idxGet (ConvertCsv.processJcrRow st row).index i =
        some st.store.length ∧
      ConvertCsv.idxGet (ConvertCsv.processJcrRow st row).index e =
        some st.store.length) ∧
    (ConvertCsv.idxGet (ConvertCsv.buildRegistry [ConvertCsv.cellCasRow]
        [ConvertCsv.cellJcrRow]).index ("0092-8674".toList) = some 0 ∧
      ConvertCsv.idxGet (ConvertCsv.buildRegistry [ConvertCsv.cellCasRow]
        [ConvertCsv.cellJcrRow]).index ("1097-4172".toList) = some 0 ∧
      ((ConvertCsv.buildRegistry [ConvertCsv.cellCasRow]
        [ConvertCsv.cellJcrRow]).store.get? 0).map ConvertCsv.Journal.name =
        some ("Cell".toList) ∧
      ((ConvertCsv.buildRegistry [ConvertCsv.cellCasRow]
        [ConvertCsv.cellJcrRow]).store.get? 0).map ConvertCsv.Journal.isTop =
        some true ∧
      ((ConvertCsv.buildRegistry [ConvertCsv.cellCasRow]
        [ConvertCsv.cellJcrRow]).store.get? 0).map ConvertCsv.Journal.casQ =
        some (some 1) ∧
      ((ConvertCsv.buildRegistry [ConvertCsv.cellCasRow]
        [ConvertCsv.cellJcrRow]).store.get? 0).map ConvertCsv.Journal.jif =
        some (some (91/2)) ∧
      ((ConvertCsv.buildRegistry [ConvertCsv.cellCasRow]
        [ConvertCsv.cellJcrRow]).store.get? 0).map ConvertCsv.Journal.jcrQ =
        some (some ("Q1".toList))) := by
  refine ⟨?_, ?_, by decide, by decide, by decide, by decide, by decide, by decide,
    by decide⟩
  · intro st row i e h1 h2 hi hine he hene hei
    obtain ⟨hidx, _⟩ := ConvertCsv.processCasRow_admitted_proj st row h1 h2
    rw [hidx, hi, he]
    exact ConvertCsv.writeKeys_both st.index i e st.store.length hine hene hei
  · intro st row i e h1 hbl hl1 hl2 hi hine he hene hei
    rw [ConvertCsv.processJcrRow_new_proj st row h1 hbl hl1 hl2, hi, he]
    exact ConvertCsv.writeKeys_both st.index i e st.store.length hine hene hei

/-- C1 witness: admitting the primary `Cell` row into the empty registry
binds both of its identifiers to the fresh record id 0. -/
theorem c1_same_record_under_both_keys_witness :
    ConvertCsv.idxGet
      (ConvertCsv.processCasRow ConvertCsv.initState ConvertCsv.cellCasRow).index
      ("0092-8674".toList) = some 0 ∧
    ConvertCsv.idxGet
      (ConvertCsv.processCasRow ConvertCsv.initState ConvertCsv.cellCasRow).index
      ("1097-4172".toList) = some 0 :=
  c1_same_record_under_both_keys.1 ConvertCsv.initState ConvertCsv.cellCasRow
    ("0092-8674".toList) ("1097-4172".toList) (by decide) (by decide) (by decide)
    (by decide) (by decide) (by decide) (by decide)

end

namespace ConvertCsv

/-- A truthy identifier enters the suppression set it is added to. -/
theorem mem_exAdd_self (ex : List (List Char)) (k : List Char) (hk : k ≠ []) :
    k ∈ exAdd ex (some k) := by
  unfold exAdd
  dsimp only
  rw [if_neg (by simpa [List.isEmpty_iff] using hk)]
  by_cases hc : ex.contains k = true
  · rw [if_pos hc]
    exact List.elem_iff.mp hc
  · rw [if_neg hc]
    simp

/-- Adding to the suppression set never removes a member. -/
theorem mem_exAdd_mono (ex : List (List Char)) (o : Option (List Char))
    (k : List Char) (hk : k ∈ ex) : k ∈ exAdd ex o := by
  unfold exAdd
  cases o with
  | none => exact hk
  | some i =>
    dsimp only
    split
    · exact hk
    · split
      · exact hk
      · exact List.mem_append.mpr (Or.inl hk)

/-- The truthy identifiers of a CAS row, characterized. -/
theorem casRowIds_spec (row : Row) (k : List Char) :
    k ∈ casRowIds row ↔
      ((casIssn row = some k ∨ casEissn row = some k) ∧ k ≠ []) := by
  unfold casRowIds
  simp only [List.mem_filter, List.mem_filterMap, List.mem_cons, List.mem_singleton,
    id_eq, Bool.not_eq_true']
  constructor
  · rintro ⟨⟨o, ho, rfl⟩, hne⟩
    refine ⟨?_, by simpa [List.isEmpty_iff] using hne⟩
    rcases ho with h | h | h
    · exact Or.inl (h ▸ rfl)
    · exact Or.inr (h ▸ rfl)
    · simp at h
  · rintro ⟨h, hne⟩
    refine ⟨⟨some k, ?_, rfl⟩, by simpa [List.isEmpty_iff] using hne⟩
    rcases h with h | h
    · exact Or.inl h.symm
    · exact Or.inr (Or.inl h.symm)

/-- `writeKeys` leaves the binding of any key it does not write. -/
theorem idxGet_writeKeys_ne (idx : List (List Char × Nat))
    (issn eissn : Option (List Char)) (id : Nat) (k : List Char)
    (h1 : ∀ i, issn = some i → i = [] ∨ i ≠ k)
    (h2 : ∀ e, eissn = some e → e = [] ∨ e ≠ k) :
    idxGet (writeKeys idx issn eissn id) k = idxGet idx k := by
  unfold writeKeys
  cases hio : issn with
  | none =>
    dsimp only
    cases heo : eissn with
    | none => rfl
    | some e =>
      dsimp only
      by_cases hcond : (!e.isEmpty && !(some e == none)) = true
      · rw [if_pos hcond]
        have hene : e ≠ [] := by
          have := (Bool.and_eq_true _ _).mp hcond
          simpa [List.isEmpty_iff] using this.1
        rcases h2 e heo with hh | hh
        · exact absurd hh hene
        · exact idxGet_idxSet_ne idx e k id (Ne.symm hh)
      · rw [if_neg hcond]
  | some i =>
    dsimp only
    by_cases hie : i.isEmpty = true
    · rw [if_pos hie]
      cases heo : eissn with
      | none => rfl
      | some e =>
        dsimp only
        by_cases hcond : (!e.isEmpty && !(some e == some i)) = true
        · rw [if_pos hcond]
          have hene : e ≠ [] := by
            have := (Bool.and_eq_true _ _).mp hcond
            simpa [List.isEmpty_iff] using this.1
          rcases h2 e heo with hh | hh
          · exact absurd hh hene
          · exact idxGet_idxSet_ne idx e k id (Ne.symm hh)
        · rw [if_neg hcond]
    · rw [if_neg hie]
      have hine : i ≠ [] := by simpa [List.isEmpty_iff] using hie
      have hbase : idxGet (idxSet idx i id) k = idxGet idx k := by
        rcases h1 i hio with hh | hh
        · exact absurd hh hine
        · exact idxGet_idxSet_ne idx i k id (Ne.symm hh)
      cases heo : eissn with
      | none => exact hbase
      | some e =>
        dsimp only
        by_cases hcond : (!e.isEmpty && !(some e == some i)) = true
        · rw [if_pos hcond]
          have hene : e ≠ [] := by
            have := (Bool.and_eq_true _ _).mp hcond
            simpa [List.isEmpty_iff] using this.1
          rcases h2 e heo with hh | hh
          · exact absurd hh hene
          · rw [idxGet_idxSet_ne _ e k id (Ne.symm hh)]
            exact hbase
        · rw [if_neg hcond]
          exact hbase

end ConvertCsv

namespace ConvertCsv

/-- CAS-pass fold invariant: if no admitted row writes a key of `E`, keys
of `E` stay absent from the index. -/
theorem casFold_no_excluded_key (E : List (List Char)) :
    ∀ (l : List Row) (st : RegState),
      (∀ row ∈ l, casExcludedHit row = false → ∀ k ∈ casRowIds row, k ∉ E) →
      (∀ k ∈ E, idxGet st.index k = none) →
      ∀ k ∈ E, idxGet ((l.foldl processCasRow st).index) k = none := by
  intro l
  induction l with
  | nil =>
    intro st _ hst k hk
    simpa using hst k hk
  | cons row rest ih =>
    intro st hrows hst k hk
    rw [List.foldl_cons]
    refine ih (processCasRow st row) (fun r hr => hrows r (by simp [hr])) ?_ k hk
    intro k2 hk2
    by_cases hname : jsTruthy (rowGet row ("Journal".toList)) = true
    · by_cases hex : casExcludedHit row = true
      · rw [processCasRow_excluded_eq st row hname hex]
        exact hst k2 hk2
      · obtain ⟨hidx, _⟩ :=
          processCasRow_admitted_proj st row hname (by simpa using hex)
        rw [hidx]
        rw [idxGet_writeKeys_ne st.index (casIssn row) (casEissn row)
          st.store.length k2 ?_ ?_]
        · exact hst k2 hk2
        · intro i hi
          by_cases hie : i = []
          · exact Or.inl hie
          · refine Or.inr fun hcon => ?_
            subst hcon
            exact hrows row (by simp) (by simpa using hex) i
              ((casRowIds_spec row i).mpr ⟨Or.inl hi, hie⟩) hk2
        · intro e he
          by_cases hee : e = []
          · exact Or.inl hee
          · refine Or.inr fun hcon => ?_
            subst hcon
            exact hrows row (by simp) (by simpa using hex) e
              ((casRowIds_spec row e).mpr ⟨Or.inr he, hee⟩) hk2
    · rw [processCasRow_skip st row (by simpa using hname)]
      exact hst k2 hk2

/-- An identifier in the suppression set cannot pass the JCR guard. -/
theorem not_mem_of_exHasTruthy_false (ex : List (List Char)) (i : List Char)
    (hi : i ≠ []) (h : exHasTruthy ex (some i) = false) : i ∉ ex := by
  intro hmem
  unfold exHasTruthy at h
  dsimp only at h
  rw [show ex.contains i = true from List.elem_iff.mpr hmem] at h
  simp [List.isEmpty_iff, hi] at h

/-- JCR-pass fold invariant: suppressed keys stay absent from the index
(the suppression set itself is frozen during this pass). -/
theorem jcrFold_no_excluded_key (E : List (List Char)) :
    ∀ (l : List Row) (st : RegState), st.excludedIssns = E →
      (∀ k ∈ E, idxGet st.index k = none) →
      ∀ k ∈ E, idxGet ((l.foldl processJcrRow st).index) k = none := by
  intro l
  induction l with
  | nil =>
    intro st _ hst k hk
    simpa using hst k hk
  | cons row rest ih =>
    intro st hE hst k hk
    rw [List.foldl_cons]
    refine ih (processJcrRow st row) (by rw [processJcrRow_excludedIssns, hE]) ?_ k hk
    intro k2 hk2
    rcases processJcrRow_index_cases st row with hidx | ⟨hbl, hidx⟩
    · rw [hidx]
      exact hst k2 hk2
    · rw [hidx]
      obtain ⟨hbl1, hbl2⟩ := Bool.or_eq_false_iff.mp hbl
      rw [idxGet_writeKeys_ne st.index (jcrIssn row) (jcrEissn row)
        st.store.length k2 ?_ ?_]
      · exact hst k2 hk2
      · intro i hi
        by_cases hie : i = []
        · exact Or.inl hie
        · refine Or.inr fun hcon => ?_
          subst hcon
          rw [hi] at hbl1
          exact not_mem_of_exHasTruthy_false st.excludedIssns i hie hbl1 (hE ▸ hk2)
      · intro e he
        by_cases hee : e = []
        · exact Or.inl hee
        · refine Or.inr fun hcon => ?_
          subst hcon
          rw [he] at hbl2
          exact not_mem_of_exHasTruthy_false st.excludedIssns e hee hbl2 (hE ▸ hk2)

end ConvertCsv

/-- C5: excluded-category suppression is transitive across both sources.
(1) A primary-source row in an excluded category is dropped — the index
and the record heap are untouched — and each of its truthy normalized
identifiers enters the suppression set.  (2) A secondary-source row
carrying a suppressed identifier is skipped entirely.  (3) Consequently,
whenever no admitted primary row shares an identifier with an excluded
row, no suppressed identifier ever appears as a key of the finished
registry. -/
theorem c5_suppression_transitive :
    (∀ (st : ConvertCsv.RegState) (row : ConvertCsv.Row),
      ConvertCsv.jsTruthy (ConvertCsv.rowGet row ("Journal".toList)) = true →
      ConvertCsv.casExcludedHit row = true →
      (ConvertCsv.processCasRow st row).index = st.index ∧
      (ConvertCsv.processCasRow st row).store = st.store ∧
      ∀ k ∈ ConvertCsv.casRowIds row,
        k ∈ (ConvertCsv.processCasRow st row).excludedIssns) ∧
    (∀ (st : ConvertCsv.RegState) (row : ConvertCsv.Row),
      (ConvertCsv.exHasTruthy st.excludedIssns (ConvertCsv.jcrIssn row) ||
        ConvertCsv.exHasTruthy st.excludedIssns (ConvertCsv.jcrEissn row)) = true →
      ConvertCsv.processJcrRow st row = st) ∧
    (∀ (cas jcr : List ConvertCsv.Row),
      (∀ row ∈ cas, ConvertCsv.casExcludedHit row = false →
        ∀ k ∈ ConvertCsv.casRowIds row, k ∉ ConvertCsv.casExcludedSet cas) →
      ∀ k ∈ ConvertCsv.casExcludedSet cas,
        ConvertCsv.idxGet (ConvertCsv.buildRegistry cas jcr).index k = none) := by
  refine ⟨?_, ?_, ?_⟩
  · intro st row h1 h2
    rw [ConvertCsv.processCasRow_excluded_eq st row h1 h2]
    refine ⟨rfl, rfl, fun k hk => ?_⟩
    rcases (ConvertCsv.casRowIds_spec row k).mp hk with ⟨h | h, hne⟩
    · exact ConvertCsv.mem_exAdd_mono _ _ k
        (h ▸ ConvertCsv.mem_exAdd_self st.excludedIssns k hne)
    · exact h ▸ ConvertCsv.mem_exAdd_self _ k hne
  · exact fun st row h => ConvertCsv.processJcrRow_skip_blacklisted st row h
  · intro cas jcr H k hk
    exact ConvertCsv.jcrFold_no_excluded_key (ConvertCsv.casExcludedSet cas) jcr
      (cas.foldl ConvertCsv.processCasRow ConvertCsv.initState) rfl
      (ConvertCsv.casFold_no_excluded_key (ConvertCsv.casExcludedSet cas) cas
        ConvertCsv.initState H (fun k2 _ => rfl)) k hk

/-- C5 witness: the identifier of an excluded 文学 row is absent from the
registry even though a secondary row carries it. -/
theorem c5_suppression_transitive_witness :
    ConvertCsv.idxGet
      (ConvertCsv.buildRegistry [ConvertCsv.excludedCasRow]
        [ConvertCsv.excludedJcrRow]).index ("1111-2222".toList) = none :=
  c5_suppression_transitive.2.2 [ConvertCsv.excludedCasRow]
    [ConvertCsv.excludedJcrRow] (by decide) ("1111-2222".toList) (by decide)
